import Mathlib

/-!
Shallow embedding of the bytecode interpreter in `solutions/interpreter.py`
(the module-level `step` function, lines 656-1122, which is the one the
driver in `__main__` executes), together with theorems checking the
specification's claims about it.

Representation choices, documented once here:

* Python `jvm.Value` is a (type, payload) pair.  The payload forms that the
  interpreter actually constructs and inspects are: machine integers
  (`Value.int`), booleans (`Value.boolean`), single characters
  (`Value.char`), short-tagged integers (`Value.short`, produced only by
  the `i2s` cast), the null marker `jvm.Value(jvm.Reference(), None)`
  (`Value.refNull`), arrays whose payload is a plain list of integers
  (`Value.arr`, matching `_new_array`, which builds `[0, 0, ...]`, and
  `_array_store`, which stores raw `value.value` integers), and objects
  whose payload is a field-name-to-value mapping (`Value.obj`).
* Python `dict`s (locals, heap, object fields) are modelled as association
  lists with a replace-in-place update, which preserves dict observations:
  lookup, key-set size, insertion order, and emptiness.
* Heap references are the integer payloads the interpreter itself uses as
  keys (`jvm.Value.int(ref)`); `heapKey` extracts a key the way a Python
  dict lookup would hash the payload (booleans hash like 0/1), and payloads
  that are unhashable or never match an integer key map to `none`.
* A raised Python exception (failed `assert`, `NotImplementedError`,
  `KeyError`, `IndexError`, `TypeError`) is the `StepResult.fatal` result:
  an implementation defect, disjoint from the outcome strings, exactly as
  section 7 of the specification requires.  Comparison instructions are
  modelled on numeric and boolean payloads (the ones Python compares
  without raising); exotic payload comparisons, element storage in
  non-integer arrays, and aliased in-place dict mutation observed through
  stale stack copies fall outside the states this development exercises
  and are mapped to `fatal` or to heap-entry replacement as noted inline.
* Python list indexing wraps negative indices (`xs[-1]` is the last
  element) and raises `IndexError` below `-len`; `pyGet`/`pySet` model
  this exactly.  Python `//` on `int` is floor division, `Int.fdiv`.
-/

namespace JpambInterp

/-- JVM types as used by the interpreter (`jvm.Int`, `jvm.Boolean`, ...). -/
inductive JvmType where
  | int
  | boolean
  | char
  | short
  | reference
  | array (elem : JvmType)
  | object (classname : String)
deriving DecidableEq

/-- Binary operators of `jvm.BinaryOpr` handled by the dispatch. -/
inductive BinaryOpr where
  | add
  | sub
  | mul
  | div
  | rem
deriving DecidableEq

/-- Comparison conditions of `_if` (`ne`, `eq`, `ge`, `gt`, `lt`, `le`). -/
inductive Cond where
  | ne
  | eq
  | ge
  | gt
  | lt
  | le
deriving DecidableEq

/-- Method identifier: class name, method name and parameter list.  The
source reads the parameter list both as `method.extension.params`
(`_invoke_static`) and `method.methodid.params` (`_invoke_special`,
`_invoke_virtual`); both denote the declared parameter types. -/
structure MethodID where
  classname : String
  name : String
  params : List JvmType
deriving DecidableEq

/-- Runtime values, mirroring the payloads `jvm.Value` carries in the
interpreter (see the header comment). -/
inductive Value where
  | int (n : Int)
  | boolean (b : Bool)
  | char (c : Char)
  | short (n : Int)
  | refNull
  | arr (t : JvmType) (elems : List Int)
  | obj (classname : String) (fields : List (String × Value))

/-- Program counter: method identifier plus integer offset (class `PC`). -/
structure PC where
  method : MethodID
  offset : Int

/-- `PC.__add__`: advancing by `delta` increments the offset. -/
def PC.add (pc : PC) (delta : Int) : PC :=
  ⟨pc.method, pc.offset + delta⟩

/-- Locals: the `dict[int, jvm.Value]` of a frame. -/
abbrev Locals := List (Nat × Value)

/-- One activation record (class `Frame`): locals, operand stack (head is
the top, i.e. the last element Python appended), and program counter. -/
structure Frame where
  locals : Locals
  stack : List Value
  pc : PC

/-- The heap: `dict[int, jvm.Value]` from references to heap values. -/
abbrev Heap := List (Int × Value)

/-- Execution state (class `State`): heap plus call stack, head is the
innermost (currently executing) frame. -/
structure State where
  heap : Heap
  frames : List Frame

/-- One decoded instruction (the `jvm.Opcode` variants the dispatch in
`step` recognizes). -/
inductive Opcode where
  | push (v : Value)
  | load (t : JvmType) (index : Nat)
  | store (t : JvmType) (index : Nat)
  | binary (t : JvmType) (op : BinaryOpr)
  | incr (index : Nat) (amount : Int)
  | dup (words : Nat)
  | get (static : Bool) (field : String)
  | put (static : Bool) (field : String)
  | ret (t : Option JvmType)
  | ifCmp (cond : Cond) (target : Int)
  | ifz (cond : Cond) (target : Int)
  | goto (target : Int)
  | newObj (classname : String)
  | newArray (t : JvmType) (dim : Nat)
  | arrayStore (t : JvmType)
  | arrayLoad (t : JvmType)
  | arrayLength
  | invokeStatic (method : MethodID)
  | invokeSpecial (method : MethodID) (isInterface : Bool)
  | invokeVirtual (method : MethodID)
  | cast (src : JvmType) (tgt : JvmType)

/-- Declared field of a class, as `suite.findclass` reports it:
name, base-type string, and the static flag. -/
structure FieldDecl where
  name : String
  base : String
  static : Bool

/-- The external collaborators (class `Bytecode` wrapping `jpamb.Suite`):
decoded instruction lists per method, static field values, and declared
fields per class. -/
structure Context where
  methods : MethodID → Option (List Opcode)
  staticField : String → String → Option Value
  classFields : String → Option (List FieldDecl)

/-- Result of one transition: a next state, a terminal outcome string
returned as data, or a raised Python exception (implementation defect). -/
inductive StepResult where
  | next (s : State)
  | outcome (msg : String)
  | fatal

/-- Python list read `xs[i]`: nonnegative indices are direct, negative
indices wrap from the end, and anything outside `[-len, len)` raises. -/
def pyGet (xs : List α) (i : Int) : Option α :=
  if 0 ≤ i then xs[i.toNat]?
  else if (-i).toNat ≤ xs.length then xs[xs.length - (-i).toNat]? else none

/-- Python list write `xs[i] = v`, with the same index rule as `pyGet`. -/
def pySet (xs : List α) (i : Int) (v : α) : Option (List α) :=
  if 0 ≤ i then
    if i.toNat < xs.length then some (xs.set i.toNat v) else none
  else if (-i).toNat ≤ xs.length then some (xs.set (xs.length - (-i).toNat) v)
  else none

/-- Dict lookup on an association list. -/
def getAssoc [DecidableEq κ] : List (κ × α) → κ → Option α
  | [], _ => none
  | (k, v) :: t, k2 => if k = k2 then some v else getAssoc t k2

/-- Dict update on an association list: replace the binding in place if the
key exists, else append (Python dicts keep insertion order). -/
def setAssoc [DecidableEq κ] : List (κ × α) → κ → α → List (κ × α)
  | [], k, v => [(k, v)]
  | (k1, v1) :: t, k, v =>
    if k1 = k then (k, v) :: t else (k1, v1) :: setAssoc t k v

/-- Largest key of a nonempty heap. -/
def maxKey : Heap → Option Int
  | [] => none
  | (k, _) :: t =>
    some (match maxKey t with
          | none => k
          | some m => max k m)

/-- Fresh reference: `max(state.heap.keys()) + 1 if state.heap else 0`. -/
def freshKey (h : Heap) : Int :=
  match maxKey h with
  | none => 0
  | some m => m + 1

/-- The integer key a Python dict lookup would find for this payload:
`objref.value` used as a dict key.  Integer and short payloads are their
number, booleans hash like `0`/`1`; other payloads never match an integer
key (or are unhashable) and lead to a fatal lookup failure. -/
def heapKey : Value → Option Int
  | .int n => some n
  | .short n => some n
  | .boolean b => some (if b then 1 else 0)
  | _ => none

/-- Numeric view of a payload for `_if` comparisons (Python compares bools
as 0/1); other payloads raise on ordered comparison. -/
def cmpVal : Value → Option Int
  | .int n => some n
  | .short n => some n
  | .boolean b => some (if b then 1 else 0)
  | _ => none

/-- `_if` with `ifz=True`: a Boolean payload is first converted to 1/0,
otherwise the raw payload is compared with 0. -/
def ifzVal : Value → Option Int
  | .boolean b => some (if b then 1 else 0)
  | .int n => some n
  | .short n => some n
  | _ => none

/-- Evaluate an `_if` condition on the two operands (v1 left, v2 right). -/
def condHolds (c : Cond) (v1 v2 : Int) : Bool :=
  match c with
  | .ne => decide (v1 ≠ v2)
  | .eq => decide (v1 = v2)
  | .ge => decide (v1 ≥ v2)
  | .gt => decide (v1 > v2)
  | .lt => decide (v1 < v2)
  | .le => decide (v1 ≤ v2)

/-- `_push`: push the literal and advance the pc. -/
def push (heap : Heap) (f : Frame) (rest : List Frame) (v : Value) : StepResult :=
  .next ⟨heap, { f with stack := v :: f.stack, pc := f.pc.add 1 } :: rest⟩

/-- `_load` (the module-level definition at line 1026, which shadows the
earlier one): read the local slot, push it, advance. -/
def load (heap : Heap) (f : Frame) (rest : List Frame) (index : Nat) : StepResult :=
  match getAssoc f.locals index with
  | none => .fatal
  | some v => .next ⟨heap, { f with stack := v :: f.stack, pc := f.pc.add 1 } :: rest⟩

/-- `_store`: pop one value into the local slot, advance. -/
def store (heap : Heap) (f : Frame) (rest : List Frame) (index : Nat) : StepResult :=
  match f.stack with
  | [] => .fatal
  | v :: σ =>
    .next ⟨heap, { f with locals := setAssoc f.locals index v, stack := σ,
                          pc := f.pc.add 1 } :: rest⟩

/-- `_dup`: peek the top of the stack and push it again. -/
def dup (heap : Heap) (f : Frame) (rest : List Frame) : StepResult :=
  match f.stack with
  | [] => .fatal
  | v :: σ => .next ⟨heap, { f with stack := v :: v :: σ, pc := f.pc.add 1 } :: rest⟩

/-- `_binary_add`: pop v2 then v1, both asserted Int, push v1 + v2. -/
def binary_add (heap : Heap) (f : Frame) (rest : List Frame) : StepResult :=
  match f.stack with
  | .int v2 :: .int v1 :: σ =>
    .next ⟨heap, { f with stack := .int (v1 + v2) :: σ, pc := f.pc.add 1 } :: rest⟩
  | _ => .fatal

/-- `_binary_sub`: pop v2 then v1, both asserted Int, push v1 - v2. -/
def binary_sub (heap : Heap) (f : Frame) (rest : List Frame) : StepResult :=
  match f.stack with
  | .int v2 :: .int v1 :: σ =>
    .next ⟨heap, { f with stack := .int (v1 - v2) :: σ, pc := f.pc.add 1 } :: rest⟩
  | _ => .fatal

/-- `_binary_mul`: pop v2 then v1, both asserted Int, push v1 * v2. -/
def binary_mul (heap : Heap) (f : Frame) (rest : List Frame) : StepResult :=
  match f.stack with
  | .int v2 :: .int v1 :: σ =>
    .next ⟨heap, { f with stack := .int (v1 * v2) :: σ, pc := f.pc.add 1 } :: rest⟩
  | _ => .fatal

/-- `_binary_div`: pop v2 then v1, both asserted Int; zero right operand is
the outcome `divide by zero`, otherwise push the Python floor quotient
`v1 // v2` and advance. -/
def binary_div (heap : Heap) (f : Frame) (rest : List Frame) : StepResult :=
  match f.stack with
  | .int v2 :: .int v1 :: σ =>
    if v2 = 0 then .outcome "divide by zero"
    else .next ⟨heap, { f with stack := .int (Int.fdiv v1 v2) :: σ,
                               pc := f.pc.add 1 } :: rest⟩
  | _ => .fatal

/-- `_binary_rem`: pop v2 then v1, both asserted Int; zero right operand is
the outcome `divide by zero`, otherwise push
`vv1 - (vv1 // vv2) * vv2` and advance. -/
def binary_rem (heap : Heap) (f : Frame) (rest : List Frame) : StepResult :=
  match f.stack with
  | .int v2 :: .int v1 :: σ =>
    if v2 = 0 then .outcome "divide by zero"
    else .next ⟨heap, { f with stack := .int (v1 - Int.fdiv v1 v2 * v2) :: σ,
                               pc := f.pc.add 1 } :: rest⟩
  | _ => .fatal

/-- `_get_static`: fetch the static field value from the suite (keyed by
the current method's class and the field name) and push it. -/
def get_static (ctx : Context) (heap : Heap) (f : Frame) (rest : List Frame)
    (field : String) : StepResult :=
  match ctx.staticField f.pc.method.classname field with
  | none => .fatal
  | some v => .next ⟨heap, { f with stack := v :: f.stack, pc := f.pc.add 1 } :: rest⟩

/-- `_get_field`: pop the object reference; a None payload returns the
string `NullPointerException` (sic, the literal the source returns); an
invalid reference or missing field raises; otherwise push the field value
and advance. -/
def get_field (heap : Heap) (f : Frame) (rest : List Frame)
    (field : String) : StepResult :=
  match f.stack with
  | [] => .fatal
  | objref :: σ =>
    match objref with
    | .refNull => .outcome "NullPointerException"
    | _ =>
      match heapKey objref with
      | none => .fatal
      | some k =>
        match getAssoc heap k with
        | some (.obj _ fields) =>
          match getAssoc fields field with
          | none => .fatal
          | some v =>
            .next ⟨heap, { f with stack := v :: σ, pc := f.pc.add 1 } :: rest⟩
        | some _ => .fatal
        | none => .fatal

/-- Shared tail of `_if`: jump to the target offset if the condition holds
on (v1, v2), else fall through to the next offset. -/
def jumpResult (heap : Heap) (f : Frame) (rest : List Frame) (σ : List Value)
    (c : Cond) (v1 v2 : Int) (target : Int) : StepResult :=
  .next ⟨heap, { f with stack := σ,
                        pc := if condHolds c v1 v2 then ⟨f.pc.method, target⟩
                              else ⟨f.pc.method, f.pc.offset + 1⟩ } :: rest⟩

/-- `_if`: with `isZ` pop one value (Booleans become 1/0) and compare with
0; otherwise pop v2 then v1 and compare v1 against v2. -/
def if_cmp (heap : Heap) (f : Frame) (rest : List Frame) (c : Cond)
    (target : Int) (isZ : Bool) : StepResult :=
  if isZ then
    match f.stack with
    | [] => .fatal
    | v :: σ =>
      match ifzVal v with
      | none => .fatal
      | some v1 => jumpResult heap f rest σ c v1 0 target
  else
    match f.stack with
    | a :: b :: σ =>
      match cmpVal a, cmpVal b with
      | some v2, some v1 => jumpResult heap f rest σ c v1 v2 target
      | _, _ => .fatal
    | _ => .fatal

/-- `_goto`: set the offset of the current pc to the target. -/
def goto (heap : Heap) (f : Frame) (rest : List Frame) (target : Int) : StepResult :=
  .next ⟨heap, { f with pc := ⟨f.pc.method, target⟩ } :: rest⟩

/-- The binding loop of `_invoke_static`: for index 0, 1, ... pop the
caller stack and write the popped value to that local slot of the callee;
so the i-th pop (depth i from the top) lands in local i. -/
def bindFrom : List Value → Nat → Nat → Locals → Option (Locals × List Value)
  | stk, 0, _, acc => some (acc, stk)
  | [], _ + 1, _, _ => none
  | v :: σ, n + 1, i, acc => bindFrom σ n (i + 1) (setAssoc acc i v)

/-- `_invoke_static`: build a fresh frame for the callee at offset 0, bind
one popped argument per parameter via `bindFrom`, and push the frame; the
caller's pc is left unchanged (the later return advances it). -/
def invoke_static (heap : Heap) (f : Frame) (rest : List Frame)
    (m : MethodID) : StepResult :=
  match bindFrom f.stack m.params.length 0 [] with
  | none => .fatal
  | some (locs, σ) =>
    .next ⟨heap, ⟨locs, [], ⟨m, 0⟩⟩ :: { f with stack := σ } :: rest⟩

/-- Pop `n` values off the stack, in pop order (top first). -/
def popN : Nat → List Value → Option (List Value × List Value)
  | 0, stk => some ([], stk)
  | _ + 1, [] => none
  | n + 1, v :: σ =>
    match popN n σ with
    | none => none
    | some (args, remain) => some (v :: args, remain)

/-- Bind a list of arguments to consecutive local slots starting at `i`. -/
def bindArgs : Locals → List Value → Nat → Locals
  | acc, [], _ => acc
  | acc, v :: vs, i => bindArgs (setAssoc acc i v) vs (i + 1)

/-- `_invoke_special`: the root-object no-op constructor only advances the
pc; otherwise pop parameter-count-plus-one values, collect them with
`insert(0, ...)` so the deepest value ends up first, bind them to locals
0.. in that order, and push the callee frame. -/
def invoke_special (heap : Heap) (f : Frame) (rest : List Frame)
    (m : MethodID) : StepResult :=
  if m.classname = "java/lang/Object" ∧ m.name = "<init>" then
    .next ⟨heap, { f with pc := f.pc.add 1 } :: rest⟩
  else
    match popN (m.params.length + 1) f.stack with
    | none => .fatal
    | some (popped, σ) =>
      .next ⟨heap, ⟨bindArgs [] popped.reverse 0, [], ⟨m, 0⟩⟩ ::
                   { f with stack := σ } :: rest⟩

/-- `_invoke_virtual`: as `_invoke_special` without the root-object case. -/
def invoke_virtual (heap : Heap) (f : Frame) (rest : List Frame)
    (m : MethodID) : StepResult :=
  match popN (m.params.length + 1) f.stack with
  | none => .fatal
  | some (popped, σ) =>
    .next ⟨heap, ⟨bindArgs [] popped.reverse 0, [], ⟨m, 0⟩⟩ ::
                 { f with stack := σ } :: rest⟩

/-- `_return`: pop the current frame; with callers remaining, a typed
return moves the returned value from the popped frame's stack to the new
top frame's stack and advances that frame's pc (a void return only
advances it); with no caller left the outcome is `ok`. -/
def return_op (heap : Heap) (f : Frame) (rest : List Frame)
    (t : Option JvmType) : StepResult :=
  match rest with
  | [] => .outcome "ok"
  | g :: rest2 =>
    match t with
    | none => .next ⟨heap, { g with pc := g.pc.add 1 } :: rest2⟩
    | some _ =>
      match f.stack with
      | [] => .fatal
      | v :: _ =>
        .next ⟨heap, { g with stack := v :: g.stack, pc := g.pc.add 1 } :: rest2⟩

/-- Default-initialize the non-static declared fields of a class, in
declaration order: `int` fields to 0, `boolean` fields to false, anything
else to the null reference. -/
def defaultFields : List FieldDecl → List (String × Value)
  | [] => []
  | fd :: t =>
    if fd.static then defaultFields t
    else
      (fd.name,
        if fd.base = "int" then Value.int 0
        else if fd.base = "boolean" then Value.boolean false
        else Value.refNull) :: defaultFields t

/-- `_new`: constructing `java/lang/AssertionError` immediately yields the
outcome `assertion error`; otherwise allocate a fresh reference, store a
default-initialized object there, push the reference, and advance. -/
def new (ctx : Context) (heap : Heap) (f : Frame) (rest : List Frame)
    (classname : String) : StepResult :=
  if classname = "java/lang/AssertionError" then .outcome "assertion error"
  else
    match ctx.classFields classname with
    | none => .fatal
    | some fds =>
      let r := freshKey heap
      .next ⟨setAssoc heap r (.obj classname (defaultFields fds)),
             { f with stack := .int r :: f.stack, pc := f.pc.add 1 } :: rest⟩

/-- `_new_array`: only Int element type is handled; pop the size (Python
`range` of a negative size is empty, hence `Int.toNat`), allocate a fresh
all-zero array, push its reference, advance. -/
def new_array (heap : Heap) (f : Frame) (rest : List Frame)
    (t : JvmType) : StepResult :=
  match t with
  | .int =>
    match f.stack with
    | .int size :: σ =>
      let r := freshKey heap
      .next ⟨setAssoc heap r (.arr .int (List.replicate size.toNat 0)),
             { f with stack := .int r :: σ, pc := f.pc.add 1 } :: rest⟩
    | _ => .fatal
  | _ => .fatal

/-- `_array_store`: pop value, index, reference (in that order); a null
reference yields `null pointer`; an index at or past the length yields
`out of bounds`; a negative index is written with Python wrap-around; the
heap entry is then replaced by a new array value with that slot
overwritten (copy-on-write), and the pc advances. -/
def array_store (heap : Heap) (f : Frame) (rest : List Frame)
    (t : JvmType) : StepResult :=
  match f.stack with
  | value :: index :: ref :: σ =>
    match ref with
    | .refNull => .outcome "null pointer"
    | .int r =>
      match index, value, t with
      | .int i, .int v, .int =>
        match getAssoc heap r with
        | some (.arr _ elems) =>
          if (elems.length : Int) ≤ i then .outcome "out of bounds"
          else
            match pySet elems i v with
            | none => .fatal
            | some elems2 =>
              .next ⟨setAssoc heap r (.arr t elems2),
                     { f with stack := σ, pc := f.pc.add 1 } :: rest⟩
        | _ => .fatal
      | _, _, _ => .fatal
    | _ => .fatal
  | _ => .fatal

/-- `_array_load`: pop index then reference; there is no null check (a
null payload fails the Int-type assertion instead); an index at or past
the length yields `out of bounds`; a negative index in range is read with
Python wrap-around (below `-len` raises); the Int element is pushed and
the pc advances. -/
def array_load (heap : Heap) (f : Frame) (rest : List Frame)
    (t : JvmType) : StepResult :=
  match f.stack with
  | index :: ref :: σ =>
    match ref, index with
    | .int r, .int i =>
      match getAssoc heap r with
      | some (.arr _ elems) =>
        if (elems.length : Int) ≤ i then .outcome "out of bounds"
        else
          match pyGet elems i with
          | none => .fatal
          | some v =>
            match t with
            | .int => .next ⟨heap, { f with stack := .int v :: σ,
                                            pc := f.pc.add 1 } :: rest⟩
            | _ => .fatal
      | _ => .fatal
    | _, _ => .fatal
  | _ => .fatal

/-- `_array_length`: pop the reference; null yields `null pointer`;
otherwise push the length of the heap value's payload (`len` works on both
list and dict payloads) and advance. -/
def array_length (heap : Heap) (f : Frame) (rest : List Frame) : StepResult :=
  match f.stack with
  | [] => .fatal
  | ref :: σ =>
    match ref with
    | .refNull => .outcome "null pointer"
    | _ =>
      match heapKey ref with
      | none => .fatal
      | some k =>
        match getAssoc heap k with
        | some (.arr _ elems) =>
          .next ⟨heap, { f with stack := .int elems.length :: σ,
                                pc := f.pc.add 1 } :: rest⟩
        | some (.obj _ fields) =>
          .next ⟨heap, { f with stack := .int fields.length :: σ,
                                pc := f.pc.add 1 } :: rest⟩
        | some _ => .fatal
        | none => .fatal

/-- `_incr`: the local must hold an Int; add the constant and advance. -/
def incr (heap : Heap) (f : Frame) (rest : List Frame) (index : Nat)
    (amount : Int) : StepResult :=
  match getAssoc f.locals index with
  | some (.int n) =>
    .next ⟨heap, { f with locals := setAssoc f.locals index (.int (n + amount)),
                          pc := f.pc.add 1 } :: rest⟩
  | _ => .fatal

/-- `_cast`: only Int to Short is handled; the popped payload is pushed
back unchanged under the Short tag (`jvm.Value(jvm.Short(), value.value)`,
with no truncation), and the pc advances. -/
def cast (heap : Heap) (f : Frame) (rest : List Frame)
    (src tgt : JvmType) : StepResult :=
  match src, tgt with
  | .int, .short =>
    match f.stack with
    | .int n :: σ =>
      .next ⟨heap, { f with stack := .short n :: σ, pc := f.pc.add 1 } :: rest⟩
    | .short n :: σ =>
      .next ⟨heap, { f with stack := .short n :: σ, pc := f.pc.add 1 } :: rest⟩
    | _ => .fatal
  | _, _ => .fatal

/-- `_put_field`: pop value then reference; null yields `null pointer`;
with an object payload the field mapping is updated (realized here as
replacing the heap entry, which is what the update means through the heap
key); with any other payload the write is silently skipped; then advance. -/
def put_field (heap : Heap) (f : Frame) (rest : List Frame)
    (field : String) : StepResult :=
  match f.stack with
  | value :: objref :: σ =>
    match objref with
    | .refNull => .outcome "null pointer"
    | _ =>
      match heapKey objref with
      | none => .fatal
      | some k =>
        match getAssoc heap k with
        | none => .fatal
        | some (.obj cn fields) =>
          .next ⟨setAssoc heap k (.obj cn (setAssoc fields field value)),
                 { f with stack := σ, pc := f.pc.add 1 } :: rest⟩
        | some _ =>
          .next ⟨heap, { f with stack := σ, pc := f.pc.add 1 } :: rest⟩
  | _ => .fatal

/-- `Bytecode.__getitem__`: look up the instruction list of the method and
index it with Python list semantics. -/
def fetch (ctx : Context) (pc : PC) : Option Opcode :=
  match ctx.methods pc.method with
  | none => none
  | some ops => pyGet ops pc.offset

/-- The transition function `step(state, bytecode)`: peek the top frame,
fetch the instruction at its pc, and dispatch exactly as the source's
match statement does; unknown variants raise `NotImplementedError`. -/
def step (ctx : Context) (s : State) : StepResult :=
  match s.frames with
  | [] => .fatal
  | f :: rest =>
    match fetch ctx f.pc with
    | none => .fatal
    | some op =>
      match op with
      | .push v => push s.heap f rest v
      | .load .int i => load s.heap f rest i
      | .load .reference i => load s.heap f rest i
      | .load _ _ => .fatal
      | .binary .int .add => binary_add s.heap f rest
      | .binary .int .sub => binary_sub s.heap f rest
      | .binary .int .div => binary_div s.heap f rest
      | .binary .int .rem => binary_rem s.heap f rest
      | .binary .int .mul => binary_mul s.heap f rest
      | .binary _ _ => .fatal
      | .incr i a => incr s.heap f rest i a
      | .dup 1 => dup s.heap f rest
      | .dup _ => .fatal
      | .get true fld => get_static ctx s.heap f rest fld
      | .get false fld => get_field s.heap f rest fld
      | .ret t => return_op s.heap f rest t
      | .ifCmp c t => if_cmp s.heap f rest c t false
      | .ifz c t => if_cmp s.heap f rest c t true
      | .newObj cn => new ctx s.heap f rest cn
      | .store _ i => store s.heap f rest i
      | .newArray t 1 => new_array s.heap f rest t
      | .newArray _ _ => .fatal
      | .arrayStore t => array_store s.heap f rest t
      | .arrayLoad t => array_load s.heap f rest t
      | .arrayLength => array_length s.heap f rest
      | .invokeStatic m => invoke_static s.heap f rest m
      | .invokeSpecial m _ => invoke_special s.heap f rest m
      | .invokeVirtual m => invoke_virtual s.heap f rest m
      | .goto t => goto s.heap f rest t
      | .cast src tgt => cast s.heap f rest src tgt
      | .put false fld => put_field s.heap f rest fld
      | .put true _ => .fatal

/-- Concrete method id for the division/remainder evaluation states. -/
def c1mid : MethodID := ⟨"jpamb/cases/Demo", "divRem", []⟩

/-- Context whose single method body is one Int division. -/
def c1ctx : Context :=
  ⟨fun m => if m = c1mid then some [.binary .int .div] else none,
   fun _ _ => none, fun _ => none⟩

/-- Concrete method id for the subtraction evaluation state. -/
def c2mid : MethodID := ⟨"jpamb/cases/Demo", "subLeft", []⟩

/-- Context whose single method body is one Int subtraction. -/
def c2ctx : Context :=
  ⟨fun m => if m = c2mid then some [.binary .int .sub] else none,
   fun _ _ => none, fun _ => none⟩

/-- Concrete method id for the negative-index array load. -/
def c3mid : MethodID := ⟨"jpamb/cases/Demo", "loadNegOne", []⟩

/-- Context whose single method body is one Int array load. -/
def c3ctx : Context :=
  ⟨fun m => if m = c3mid then some [.arrayLoad .int] else none,
   fun _ _ => none, fun _ => none⟩

/-- State about to load index -1 from the length-1 array [5] stored at
reference 0: the stack holds the index on top of the reference. -/
def c3state : State :=
  ⟨[(0, .arr .int [5])], [⟨[], [.int (-1), .int 0], ⟨c3mid, 0⟩⟩]⟩

/-- Concrete method id for the null get-field dereference. -/
def c4mid : MethodID := ⟨"jpamb/cases/Demo", "getOnNull", []⟩

/-- Context whose single method body is one instance-field read. -/
def c4ctx : Context :=
  ⟨fun m => if m = c4mid then some [.get false "size"] else none,
   fun _ _ => none, fun _ => none⟩

/-- State about to execute a get-field with the null reference on top. -/
def c4state : State := ⟨[], [⟨[], [.refNull], ⟨c4mid, 0⟩⟩]⟩

/-- Caller method id for the static invocation. -/
def c5caller : MethodID := ⟨"jpamb/cases/Demo", "caller", []⟩

/-- Callee method id with two Int parameters. -/
def c5callee : MethodID := ⟨"jpamb/cases/Demo", "callee", [.int, .int]⟩

/-- Context whose caller body is one static invocation of the callee. -/
def c5ctx : Context :=
  ⟨fun m => if m = c5caller then some [.invokeStatic c5callee] else none,
   fun _ _ => none, fun _ => none⟩

/-- State about to invoke the callee with argument 10 pushed first
(deepest) and argument 20 pushed last (on top). -/
def c5state : State := ⟨[], [⟨[], [.int 20, .int 10], ⟨c5caller, 0⟩⟩]⟩

/-- Concrete method id for the store/load round trip. -/
def c6mid : MethodID := ⟨"jpamb/cases/Demo", "storeThenLoad", []⟩

/-- Context whose method body is an Int array store followed by a load. -/
def c6ctx : Context :=
  ⟨fun m => if m = c6mid then some [.arrayStore .int, .arrayLoad .int] else none,
   fun _ _ => none, fun _ => none⟩

/-- Concrete method id for the typed return. -/
def c7mid : MethodID := ⟨"jpamb/cases/Demo", "retInt", []⟩

/-- Context whose method body is one typed (Int) return. -/
def c7ctx : Context :=
  ⟨fun m => if m = c7mid then some [.ret (some .int)] else none,
   fun _ _ => none, fun _ => none⟩

/-- Concrete method id for the assertion-error construction. -/
def c8mid : MethodID := ⟨"jpamb/cases/Demo", "failAssert", []⟩

/-- Context whose method body is one `new java/lang/AssertionError`. -/
def c8ctx : Context :=
  ⟨fun m => if m = c8mid then some [.newObj "java/lang/AssertionError"] else none,
   fun _ _ => none, fun _ => none⟩

/-- Concrete method id for the Int-to-Short cast. -/
def c9mid : MethodID := ⟨"jpamb/cases/Demo", "i2s", []⟩

/-- Context whose method body is one Int-to-Short cast. -/
def c9ctx : Context :=
  ⟨fun m => if m = c9mid then some [.cast .int .short] else none,
   fun _ _ => none, fun _ => none⟩

/-- State about to cast the Int 40000 (outside the Short range) to Short. -/
def c9state : State := ⟨[], [⟨[], [.int 40000], ⟨c9mid, 0⟩⟩]⟩

/-- Concrete method id for the floor-division example. -/
def c10mid : MethodID := ⟨"jpamb/cases/Demo", "floorDivRem", []⟩

/-- Context whose method body is an Int division then an Int remainder. -/
def c10ctx : Context :=
  ⟨fun m => if m = c10mid then some [.binary .int .div, .binary .int .rem] else none,
   fun _ _ => none, fun _ => none⟩

/-- Floor division is invariant under negating both operands (the two
rationals are equal); proved by the defining clauses of `Int.fdiv`. -/
theorem fdiv_neg_neg : ∀ (a b : Int), Int.fdiv (-a) (-b) = Int.fdiv a b
  | .ofNat 0, _ => by simp
  | .ofNat (n + 1), .ofNat 0 => by
    show Int.fdiv (.negSucc n) 0 = Int.fdiv (.ofNat (n + 1)) 0
    simp [Int.fdiv]
  | .ofNat (n + 1), .ofNat (m + 1) => rfl
  | .ofNat (n + 1), .negSucc m => rfl
  | .negSucc n, .ofNat 0 => by
    show Int.fdiv (.ofNat (n + 1)) 0 = Int.fdiv (.negSucc n) 0
    simp [Int.fdiv]
  | .negSucc n, .ofNat (m + 1) => rfl
  | .negSucc n, .negSucc m => rfl

/-- C1: with the next instruction an Int binary division or remainder and
the top frame's stack holding Int v2 on top of Int v1, the step is the
terminal outcome `divide by zero` exactly when v2 = 0; for nonzero v2 the
step continues, pushing the quotient (for div) or remainder (for rem) and
advancing the pc by 1. -/
theorem C1_div_rem_zero (ctx : Context) (heap : Heap) (f : Frame)
    (rest : List Frame) (op : BinaryOpr) (v1 v2 : Int) (σ : List Value)
    (hop : op = .div ∨ op = .rem)
    (hfetch : fetch ctx f.pc = some (.binary .int op))
    (hstack : f.stack = .int v2 :: .int v1 :: σ) :
    (step ctx ⟨heap, f :: rest⟩ = .outcome "divide by zero" ↔ v2 = 0) ∧
    (v2 ≠ 0 → step ctx ⟨heap, f :: rest⟩ =
      .next ⟨heap, { f with
                     stack := .int (if op = .div then Int.fdiv v1 v2
                                    else v1 - Int.fdiv v1 v2 * v2) :: σ,
                     pc := f.pc.add 1 } :: rest⟩) := by
  rcases hop with h | h <;> subst h <;> constructor
  · by_cases hz : v2 = 0 <;> simp [step, hfetch, binary_div, hstack, hz]
  · intro hz; simp [step, hfetch, binary_div, hstack, hz]
  · by_cases hz : v2 = 0 <;> simp [step, hfetch, binary_rem, hstack, hz]
  · intro hz; simp [step, hfetch, binary_rem, hstack, hz]

/-- C2: for a binary Int subtraction or division, the second-popped value
v1 (pushed first, below v2 on the stack) is the left operand: subtraction
pushes v1 - v2 and division pushes v1 floor-divided by v2. -/
theorem C2_second_pop_is_left_operand (ctx : Context) (heap : Heap)
    (f : Frame) (rest : List Frame) (op : BinaryOpr) (v1 v2 : Int)
    (σ : List Value)
    (hop : op = .sub ∨ op = .div)
    (hfetch : fetch ctx f.pc = some (.binary .int op))
    (hstack : f.stack = .int v2 :: .int v1 :: σ)
    (hdiv : op = .div → v2 ≠ 0) :
    step ctx ⟨heap, f :: rest⟩ =
      .next ⟨heap, { f with
                     stack := .int (if op = .sub then v1 - v2
                                    else Int.fdiv v1 v2) :: σ,
                     pc := f.pc.add 1 } :: rest⟩ := by
  rcases hop with h | h <;> subst h
  · simp [step, hfetch, binary_sub, hstack]
  · simp [step, hfetch, binary_div, hstack, hdiv rfl]

/-- C6: storing Int v at in-range index i of the array at reference r
replaces the heap entry at r with a new array value with slot i
overwritten (copy-on-write), pops the three operands and advances; a
subsequent array load of index i through the same reference against that
unchanged heap entry pushes exactly v. -/
theorem C6_store_load_round_trip (ctx : Context) (heap heap2 : Heap)
    (f g : Frame) (rest rest2 : List Frame) (r i v : Int) (t0 t1 : JvmType)
    (elems : List Int) (σ σ2 : List Value)
    (hstoreOp : fetch ctx f.pc = some (.arrayStore .int))
    (hloadOp : fetch ctx g.pc = some (.arrayLoad .int))
    (hfs : f.stack = .int v :: .int i :: .int r :: σ)
    (hheap : getAssoc heap r = some (.arr t0 elems))
    (h0 : 0 ≤ i) (hlen : i < (elems.length : Int))
    (hgs : g.stack = .int i :: .int r :: σ2)
    (hheap2 : getAssoc heap2 r = some (.arr t1 (elems.set i.toNat v))) :
    step ctx ⟨heap, f :: rest⟩ =
      .next ⟨setAssoc heap r (.arr .int (elems.set i.toNat v)),
             { f with stack := σ, pc := f.pc.add 1 } :: rest⟩ ∧
    step ctx ⟨heap2, g :: rest2⟩ =
      .next ⟨heap2, { g with stack := .int v :: σ2,
                             pc := g.pc.add 1 } :: rest2⟩ := by
  have hnat : i.toNat < elems.length := by omega
  have hnle : ¬ ((elems.length : Int) ≤ i) := by omega
  constructor
  · simp [step, hstoreOp, array_store, hfs, hheap, hnle, pySet, h0, hnat]
  · have hget : (elems.set i.toNat v)[i.toNat]? = some v :=
      List.getElem?_set_self hnat
    simp [step, hloadOp, array_load, hgs, hheap2, List.length_set, hnle,
          pyGet, h0, hget]

/-- C7: a return pops the current frame; with a caller remaining, a typed
return pushes the returned value on the caller's stack and advances its pc
by 1, and a void return only advances it; with no caller remaining the
step is the terminal outcome `ok`. -/
theorem C7_return (ctx : Context) (heap : Heap) (f : Frame)
    (rest : List Frame) (t : Option JvmType)
    (hfetch : fetch ctx f.pc = some (.ret t)) :
    (rest = [] → step ctx ⟨heap, f :: rest⟩ = .outcome "ok") ∧
    (∀ g rest2 ty v σ, rest = g :: rest2 → t = some ty → f.stack = v :: σ →
      step ctx ⟨heap, f :: rest⟩ =
        .next ⟨heap, { g with stack := v :: g.stack,
                              pc := g.pc.add 1 } :: rest2⟩) ∧
    (∀ g rest2, rest = g :: rest2 → t = none →
      step ctx ⟨heap, f :: rest⟩ =
        .next ⟨heap, { g with pc := g.pc.add 1 } :: rest2⟩) := by
  refine ⟨?_, ?_, ?_⟩
  · intro h; subst h; simp [step, hfetch, return_op]
  · intro g rest2 ty v σ h ht hs; subst h; subst ht
    simp [step, hfetch, return_op, hs]
  · intro g rest2 h ht; subst h; subst ht
    simp [step, hfetch, return_op]

/-- C10: for nonzero v2, division pushes the floor quotient `Int.fdiv v1
v2` (characterized against v1 by the floor bracketing inequalities, i.e.
rounding toward negative infinity) and remainder pushes
v1 - (fdiv v1 v2) * v2, which is zero or has the sign of v2. -/
theorem C10_floor_division (ctx : Context) (heap heapr : Heap) (f g : Frame)
    (rest restr : List Frame) (v1 v2 : Int) (σ τ : List Value)
    (hdiv : fetch ctx f.pc = some (.binary .int .div))
    (hrem : fetch ctx g.pc = some (.binary .int .rem))
    (hfs : f.stack = .int v2 :: .int v1 :: σ)
    (hgs : g.stack = .int v2 :: .int v1 :: τ)
    (hv2 : v2 ≠ 0) :
    step ctx ⟨heap, f :: rest⟩ =
      .next ⟨heap, { f with stack := .int (Int.fdiv v1 v2) :: σ,
                            pc := f.pc.add 1 } :: rest⟩ ∧
    step ctx ⟨heapr, g :: restr⟩ =
      .next ⟨heapr, { g with stack := .int (v1 - Int.fdiv v1 v2 * v2) :: τ,
                             pc := g.pc.add 1 } :: restr⟩ ∧
    (0 < v2 → v2 * Int.fdiv v1 v2 ≤ v1 ∧ v1 < v2 * (Int.fdiv v1 v2 + 1)) ∧
    (v2 < 0 → v2 * (Int.fdiv v1 v2 + 1) < v1 ∧ v1 ≤ v2 * Int.fdiv v1 v2) ∧
    (v1 - Int.fdiv v1 v2 * v2 ≠ 0 →
      (0 < v2 → 0 < v1 - Int.fdiv v1 v2 * v2) ∧
      (v2 < 0 → v1 - Int.fdiv v1 v2 * v2 < 0)) := by
  have hpos : 0 < v2 → 0 ≤ v1.fmod v2 ∧ v1.fmod v2 < v2 := fun h =>
    ⟨Int.fmod_nonneg' v1 h, Int.fmod_lt_of_pos v1 h⟩
  have hmod : v1.fmod v2 = v1 - v2 * Int.fdiv v1 v2 := Int.fmod_def v1 v2
  have hneg : v2 < 0 →
      0 ≤ (-v1).fmod (-v2) ∧ (-v1).fmod (-v2) < -v2 := fun h =>
    ⟨Int.fmod_nonneg' (-v1) (by omega), Int.fmod_lt_of_pos (-v1) (by omega)⟩
  have hmodneg : (-v1).fmod (-v2) = -v1 + v2 * Int.fdiv v1 v2 := by
    have h1 := Int.fmod_def (-v1) (-v2)
    rw [fdiv_neg_neg] at h1
    linarith [h1]
  refine ⟨?_, ?_, ?_, ?_, ?_⟩
  · simp [step, hdiv, binary_div, hfs, hv2]
  · simp [step, hrem, binary_rem, hgs, hv2]
  · intro h
    have := hpos h
    constructor <;> nlinarith [hmod, this.1, this.2]
  · intro h
    have := hneg h
    constructor <;> nlinarith [hmodneg, this.1, this.2]
  · intro hr
    have hcomm : Int.fdiv v1 v2 * v2 = v2 * Int.fdiv v1 v2 := mul_comm _ _
    constructor
    · intro h
      rcases lt_or_gt_of_ne hr with h1 | h1
      · exact absurd h1 (by have := (hpos h).1; simp only [not_lt]; linarith [hmod])
      · exact h1
    · intro h
      rcases lt_or_gt_of_ne hr with h1 | h1
      · exact h1
      · exact absurd h1 (by have := (hneg h).1; simp only [gt_iff_lt, not_lt]; linarith [hmodneg])

/-- C8: executing a `new` instruction on the class name
`java/lang/AssertionError` yields the terminal outcome `assertion error`
in that same step, for every state reaching that instruction. -/
theorem C8_new_assertion_error (ctx : Context) (heap : Heap) (f : Frame)
    (rest : List Frame)
    (hfetch : fetch ctx f.pc = some (.newObj "java/lang/AssertionError")) :
    step ctx ⟨heap, f :: rest⟩ = .outcome "assertion error" := by
  simp [step, hfetch, new]

/-- C3: evaluation of the code at the failing input: loading index -1 from
the length-1 array [5] does not yield `out of bounds` as the claim states;
`_array_load` only checks the upper bound, so Python negative indexing
wraps around and the last element 5 is pushed instead. -/
theorem C3_neg_index_loads_element :
    step c3ctx c3state =
      .next ⟨[(0, .arr .int [5])], [⟨[], [.int 5], ⟨c3mid, 1⟩⟩]⟩ ∧
    step c3ctx c3state ≠ .outcome "out of bounds" := by
  have h1 : step c3ctx c3state =
      .next ⟨[(0, .arr .int [5])], [⟨[], [.int 5], ⟨c3mid, 1⟩⟩]⟩ := rfl
  exact ⟨h1, fun h => StepResult.noConfusion (h1.symm.trans h)⟩

/-- C4: evaluation of the code at the failing input: a get-field on the
null reference returns the string `NullPointerException`, which is not the
outcome token `null pointer` the claim (and the rest of the interpreter)
uses. -/
theorem C4_null_get_field_wrong_token :
    step c4ctx c4state = .outcome "NullPointerException" ∧
    "NullPointerException" ≠ "null pointer" :=
  ⟨rfl, by decide⟩

/-- C5: evaluation of the code at the failing input: invoking a two-Int
callee with 10 pushed first and 20 pushed last binds local 0 to the
last-pushed 20 (the binding loop pops top-first into slots 0, 1, ...),
whereas the claim requires the first-pushed 10 in local 0. -/
theorem C5_args_bound_in_reverse :
    step c5ctx c5state =
      .next ⟨[], [⟨[(0, .int 20), (1, .int 10)], [], ⟨c5callee, 0⟩⟩,
                  ⟨[], [], ⟨c5caller, 0⟩⟩]⟩ ∧
    getAssoc ([(0, Value.int 20), (1, Value.int 10)] : Locals) 0 =
      some (.int 20) :=
  ⟨rfl, rfl⟩

/-- C9: evaluation of the code at the failing input: casting the Int 40000
to Short pushes the payload unchanged under the Short tag; no reduction
modulo 2 to the 16 happens, although 40000 exceeds the Short maximum 32767
and the claimed truncation rule would produce -25536. -/
theorem C9_cast_pushes_unchanged :
    step c9ctx c9state = .next ⟨[], [⟨[], [.short 40000], ⟨c9mid, 1⟩⟩]⟩ ∧
    (32767 : Int) < 40000 ∧
    (40000 + 32768) % 65536 - 32768 = (-25536 : Int) :=
  ⟨rfl, by decide, by decide⟩

/-- C1 witness: dividing 7 by 2 in a concrete state is not a divide by
zero and pushes the quotient 3 with the pc advanced. -/
theorem C1_witness :
    step c1ctx ⟨[], [⟨[], [.int 2, .int 7], ⟨c1mid, 0⟩⟩]⟩ =
      .next ⟨[], [⟨[], [.int 3], ⟨c1mid, 1⟩⟩]⟩ :=
  (C1_div_rem_zero c1ctx [] ⟨[], [.int 2, .int 7], ⟨c1mid, 0⟩⟩ [] .div 7 2 []
    (Or.inl rfl) rfl rfl).2 (by decide)

/-- C2 witness: subtracting with 10 pushed first and 3 on top pushes
10 - 3 = 7, not -7. -/
theorem C2_witness :
    step c2ctx ⟨[], [⟨[], [.int 3, .int 10], ⟨c2mid, 0⟩⟩]⟩ =
      .next ⟨[], [⟨[], [.int 7], ⟨c2mid, 1⟩⟩]⟩ :=
  C2_second_pop_is_left_operand c2ctx [] ⟨[], [.int 3, .int 10], ⟨c2mid, 0⟩⟩ []
    .sub 10 3 [] (Or.inl rfl) rfl rfl (fun _ => by decide)

/-- C6 witness: storing 9 at index 1 of [0, 0, 0] at reference 0 replaces
the heap entry with [0, 9, 0], and the subsequent load at index 1 through
reference 0 pushes 9. -/
theorem C6_witness :
    step c6ctx ⟨[(0, .arr .int [0, 0, 0])],
                [⟨[], [.int 9, .int 1, .int 0], ⟨c6mid, 0⟩⟩]⟩ =
      .next ⟨[(0, .arr .int [0, 9, 0])], [⟨[], [], ⟨c6mid, 1⟩⟩]⟩ ∧
    step c6ctx ⟨[(0, .arr .int [0, 9, 0])],
                [⟨[], [.int 1, .int 0], ⟨c6mid, 1⟩⟩]⟩ =
      .next ⟨[(0, .arr .int [0, 9, 0])], [⟨[], [.int 9], ⟨c6mid, 2⟩⟩]⟩ :=
  C6_store_load_round_trip c6ctx [(0, .arr .int [0, 0, 0])]
    [(0, .arr .int [0, 9, 0])]
    ⟨[], [.int 9, .int 1, .int 0], ⟨c6mid, 0⟩⟩
    ⟨[], [.int 1, .int 0], ⟨c6mid, 1⟩⟩ [] [] 0 1 9 .int .int [0, 0, 0] [] []
    rfl rfl rfl rfl (by decide) (by decide) rfl rfl

/-- C7 witness: a typed return from the inner frame pushes the returned 5
onto the caller's stack and advances the caller's pc from 7 to 8. -/
theorem C7_witness :
    step c7ctx ⟨[], [⟨[], [.int 5], ⟨c7mid, 0⟩⟩, ⟨[], [.int 9], ⟨c7mid, 7⟩⟩]⟩ =
      .next ⟨[], [⟨[], [.int 5, .int 9], ⟨c7mid, 8⟩⟩]⟩ :=
  (C7_return c7ctx [] ⟨[], [.int 5], ⟨c7mid, 0⟩⟩ [⟨[], [.int 9], ⟨c7mid, 7⟩⟩]
    (some .int) rfl).2.1 ⟨[], [.int 9], ⟨c7mid, 7⟩⟩ [] .int (.int 5) []
    rfl rfl rfl

/-- C8 witness: a concrete state reaching `new java/lang/AssertionError`
steps to the outcome `assertion error`. -/
theorem C8_witness :
    step c8ctx ⟨[], [⟨[], [], ⟨c8mid, 0⟩⟩]⟩ = .outcome "assertion error" :=
  C8_new_assertion_error c8ctx [] ⟨[], [], ⟨c8mid, 0⟩⟩ [] rfl

/-- C10 witness: the claim's example: dividing -7 by 2 pushes -4 (floor,
not truncation) and the remainder of -7 and 2 is 1 (sign of the
divisor). -/
theorem C10_witness :
    step c10ctx ⟨[], [⟨[], [.int 2, .int (-7)], ⟨c10mid, 0⟩⟩]⟩ =
      .next ⟨[], [⟨[], [.int (-4)], ⟨c10mid, 1⟩⟩]⟩ ∧
    step c10ctx ⟨[], [⟨[], [.int 2, .int (-7)], ⟨c10mid, 1⟩⟩]⟩ =
      .next ⟨[], [⟨[], [.int 1], ⟨c10mid, 2⟩⟩]⟩ :=
  ⟨(C10_floor_division c10ctx [] [] ⟨[], [.int 2, .int (-7)], ⟨c10mid, 0⟩⟩
      ⟨[], [.int 2, .int (-7)], ⟨c10mid, 1⟩⟩ [] [] (-7) 2 [] []
      rfl rfl rfl rfl (by decide)).1,
   (C10_floor_division c10ctx [] [] ⟨[], [.int 2, .int (-7)], ⟨c10mid, 0⟩⟩
      ⟨[], [.int 2, .int (-7)], ⟨c10mid, 1⟩⟩ [] [] (-7) 2 [] []
      rfl rfl rfl rfl (by decide)).2.1⟩

end JpambInterp
